import Mathlib

/-!
Shallow embedding of the claim-verification core of the lie_detector_be
repository (TypeScript).  Conventions of the embedding:

* JavaScript numbers are modelled as exact rationals (`ℚ`).
* Strings are Lean `String`s; character-level regex work is done on the
  underlying `List Char` (the source only manipulates ASCII ranges).
* Upstream network responses (Google Fact Check, PubMed) are passed to the
  embedded functions as explicit arguments; the functions model the pure
  processing the source performs on a received response.
* The in-memory NodeCache is explicit state: an association list from the
  cache key to the stored Verification (an entry being present models the
  entry being inside its TTL window).
* `Date.now`-style timestamps are an explicit `now : String` argument.
* JS stable `Array.prototype.sort` with comparator `b.confidence -
  a.confidence` is modelled by the stable `List.mergeSort` with the
  corresponding total preorder; any two stable sorts of the same list under
  the same total preorder coincide.
-/

namespace LieDetector

/-- ASCII word characters: the JS regex class `\w` (letters, digits, underscore). -/
def isWordChar (c : Char) : Bool := c.isAlphanum || c == '_'

/-- Whitespace characters: the ASCII part of the JS regex class `\s`. -/
def isSpaceChar (c : Char) : Bool :=
  c == ' ' || c == '\t' || c == '\n' || c == '\r' || c == '\x0b' || c == '\x0c'

/-- Does the character list start with the given pattern. -/
def startsWithSeq : List Char → List Char → Bool
  | _, [] => true
  | [], _ :: _ => false
  | a :: as, b :: bs => a == b && startsWithSeq as bs

/-- JS `String.prototype.includes pat` on character lists: does `pat` occur
as a contiguous segment of the second argument. -/
def containsSeq (pat : List Char) : List Char → Bool
  | [] => pat.isEmpty
  | c :: t => startsWithSeq (c :: t) pat || containsSeq pat t

/-- Lowercased character list of a string (JS `toLowerCase` on ASCII). -/
def lowerData (s : String) : List Char := s.data.map Char.toLower

/-! ## Data model (`src/types`) -/

/-- The closed rating enumeration of the repository. -/
inductive Rating where
  | verified
  | mostly_true
  | mixed
  | mostly_false
  | false
  | unverified
  | opinion
  | outdated
deriving DecidableEq, Repr

/-- One piece of evidence attached to a Verification. -/
structure Evidence where
  url : String
  sourceName : String
  quote : Option String := none
  datePublished : Option String := none
  peerReviewed : Option Bool := none
deriving DecidableEq, Repr

/-- The aggregate verdict for one claim. -/
structure Verification where
  claimId : String
  rating : Rating
  confidence : ℚ
  summary : String
  evidence : List Evidence
  checkedAt : String
  caveats : List String := []
deriving DecidableEq, Repr

/-- A claim submitted for verification. -/
structure Claim where
  id : String
  text : String
  context : Option String := none
  sourceUrl : Option String := none
deriving DecidableEq, Repr

/-! ## Cache key normalization (verificationService.ts, getCacheKey) -/

/-- Collapse every run of whitespace characters to a single space:
JS `.replace(/\s+/g, ' ')`. -/
def collapseWs : List Char → List Char
  | [] => []
  | c :: t =>
    if isSpaceChar c then
      match t with
      | [] => [' ']
      | d :: _ => if isSpaceChar d then collapseWs t else ' ' :: collapseWs t
    else c :: collapseWs t

/-- JS `String.prototype.trim`: drop leading and trailing whitespace. -/
def trimChars (l : List Char) : List Char :=
  ((l.dropWhile isSpaceChar).reverse.dropWhile isSpaceChar).reverse

/-- The normalization pipeline of `getCacheKey`: lowercase, strip every
character that is neither a word character nor whitespace, collapse
whitespace runs, trim, and keep the first 200 characters. -/
def normalizeClaimText (s : String) : String :=
  String.mk
    ((trimChars (collapseWs
      ((s.data.map Char.toLower).filter (fun c => isWordChar c || isSpaceChar c)))).take 200)

/-- Cache key for a claim (reads only the claim text). -/
def getCacheKey (claim : Claim) : String :=
  "claim:" ++ normalizeClaimText claim.text

/-! ## Google Fact Check adapter (googleFactCheck.ts) -/

/-- One claim review inside a Google Fact Check response (publisher flattened). -/
structure GoogleClaimReview where
  textualRating : String
  url : String
  publisherName : String
  title : String
  reviewDate : String
deriving DecidableEq, Repr

/-- One matched claim inside a Google Fact Check response. -/
structure GoogleClaim where
  text : String
  claimReview : List GoogleClaimReview
deriving DecidableEq, Repr

/-- Map a free-text rating to the closed enumeration by the ordered substring
checks of `mapRating`. -/
def mapRating (textualRating : String) : Rating :=
  let r := lowerData textualRating
  let inc := fun (sub : String) => containsSeq sub.data r
  if inc "true" && !(inc "false") && !(inc "mostly") && !(inc "partly") then .verified
  else if inc "mostly true" || inc "mostly accurate" || inc "largely true" then .mostly_true
  else if inc "mixed" || inc "half" || inc "partly" || inc "partially" || inc "misleading" then .mixed
  else if inc "mostly false" || inc "largely false" || inc "mostly inaccurate" then .mostly_false
  else if inc "false" || inc "pants on fire" || inc "incorrect" || inc "wrong" ||
          inc "fake" || inc "hoax" then .false
  else if inc "opinion" || inc "satire" || inc "commentary" then .opinion
  else if inc "outdated" || inc "old" || inc "no longer" then .outdated
  else .unverified

/-- Confidence from the number and consistency of reviews
(`calculateConfidence`); the JS `Set` size is the number of distinct mapped
ratings, here `List.dedup` length. -/
def calculateConfidence (reviews : List GoogleClaimReview) : ℚ :=
  if reviews.length == 0 then 0.3
  else if reviews.length == 1 then 0.6
  else
    let baseConfidence := min 0.9 (0.5 + (reviews.length : ℚ) * 0.1)
    let ratings := reviews.map (fun r => mapRating r.textualRating)
    let consistencyBonus : ℚ := if ratings.dedup.length == 1 then 0.1 else 0
    min 0.95 (baseConfidence + consistencyBonus)

/-- Deduplication keeping first occurrences, the key order of a JS object
built by insertion. -/
def firstDedup {α : Type} [DecidableEq α] (l : List α) : List α :=
  l.foldl (fun acc r => if r ∈ acc then acc else acc ++ [r]) []

/-- Stable insertion step for the descending-by-count sort: an element is
placed before the first entry of strictly smaller or equal count, so earlier
entries stay before later entries of equal count. -/
def insertByCount (e : Rating × Nat) : List (Rating × Nat) → List (Rating × Nat)
  | [] => [e]
  | f :: t => if f.2 ≤ e.2 then e :: f :: t else f :: insertByCount e t

/-- Stable descending sort by count (extensionally the stable JS
`sort((a, b) => b[1] - a[1])`: a stable sort under a total preorder is
unique). -/
def sortEntriesByCount : List (Rating × Nat) → List (Rating × Nat)
  | [] => []
  | e :: t => insertByCount e (sortEntriesByCount t)

/-- The most frequent rating of the list, ties broken by encounter order
(`ratingCounts` sorted descending by count with a stable sort, first entry).
The empty case is unreachable in `searchFactChecks` (reviews are non-empty). -/
def aggregateRating (ratings : List Rating) : Rating :=
  let entries := (firstDedup ratings).map (fun r => (r, ratings.count r))
  match sortEntriesByCount entries with
  | [] => .unverified
  | e :: _ => e.1

/-- The pure core of `searchFactChecks`: what the adapter returns once the
(possibly retried) HTTP call has produced the response body `respClaims`.
An empty `apiKey` is the falsy guard at the top of the function. -/
def searchFactChecks (now : String) (claim : Claim) (apiKey : String)
    (respClaims : List GoogleClaim) : Option Verification :=
  if apiKey = "" then none
  else
    match respClaims with
    | [] => none
    | topClaim :: _ =>
      match topClaim.claimReview with
      | [] => none
      | primaryReview :: restReviews =>
        let reviews := primaryReview :: restReviews
        let ratings := reviews.map (fun r => mapRating r.textualRating)
        let rating := aggregateRating ratings
        let evidence : List Evidence := reviews.map (fun review =>
          { url := review.url
            sourceName := review.publisherName
            quote := some review.title
            datePublished := some review.reviewDate
            peerReviewed := some Bool.false })
        let summary :=
          primaryReview.publisherName ++ " rated this claim as \"" ++
            primaryReview.textualRating ++ "\". " ++
            (if reviews.length > 1 then
              toString reviews.length ++ " fact-checkers have reviewed this claim."
            else "")
        some
          { claimId := claim.id
            rating := rating
            confidence := calculateConfidence reviews
            summary := summary
            evidence := evidence
            checkedAt := now }

/-! ## PubMed adapter (pubmedService.ts) -/

/-- The fixed health/medical keyword list gating the PubMed adapter. -/
def healthKeywords : List String :=
  ["cancer", "diabetes", "heart disease", "stroke", "alzheimer", "dementia",
   "depression", "anxiety", "obesity", "hypertension", "arthritis", "asthma",
   "covid", "coronavirus", "flu", "influenza", "vaccine", "vaccination",
   "treatment", "therapy", "medication", "drug", "medicine", "cure",
   "antibiotic", "supplement", "vitamin", "remedy", "surgery",
   "diet", "exercise", "sleep", "smoking", "alcohol", "caffeine",
   "nutrition", "calorie", "protein", "carbohydrate", "fat",
   "brain", "heart", "liver", "kidney", "lung", "immune system",
   "blood pressure", "cholesterol", "blood sugar", "metabolism",
   "study", "research", "clinical trial", "patients", "symptoms",
   "risk", "cause", "prevent", "reduce", "increase", "improve",
   "doctor", "physician", "scientist", "researcher", "medical"]

/-- Does the claim text contain any health keyword (`isHealthClaim`). -/
def isHealthClaim (claimText : String) : Bool :=
  let lowerText := lowerData claimText
  healthKeywords.any (fun keyword => containsSeq keyword.data lowerText)

/-- One PubMed article summary as the service consumes it. -/
structure PubMedArticle where
  uid : String
  title : String
  authors : List String
  source : String
  pubdate : String
deriving DecidableEq, Repr

/-- Title keywords suggesting the article supports the claim. -/
def supportTerms : List String :=
  ["benefit", "improve", "reduce", "prevent", "protect", "effective", "positive"]

/-- Title keywords suggesting the article contradicts the claim. -/
def contradictTerms : List String :=
  ["no effect", "ineffective", "harmful", "risk", "danger", "no benefit", "myth"]

/-- Maximal runs of word characters, accumulator-based (the matches of the JS
regex `\b\w+\b` before the length filter). -/
def wordRunsAux : List Char → List Char → List (List Char)
  | [], cur => if cur.isEmpty then [] else [cur.reverse]
  | c :: t, cur =>
    if isWordChar c then wordRunsAux t (c :: cur)
    else if cur.isEmpty then wordRunsAux t [] else cur.reverse :: wordRunsAux t []

/-- The matches of the JS regex `\b\w{4,}\b`: maximal word-character runs of
length at least 4. -/
def wordTokens (l : List Char) : List (List Char) :=
  (wordRunsAux l []).filter (fun w => w.length ≥ 4)

/-- The result record of `analyzeArticleRelevance`. -/
structure RelevanceAnalysis where
  supportingCount : Nat
  contradictingCount : Nat
  relevantArticles : List PubMedArticle
deriving DecidableEq, Repr

/-- Classify each article title against the claim: an article is relevant when
it shares at least 2 word tokens of length 4 or more with the claim; a relevant
article counts as supporting (contradicting) when its title contains a support
(contradiction) term and no term of the other kind. -/
def analyzeArticleRelevance (claimText : String) (articles : List PubMedArticle) :
    RelevanceAnalysis :=
  let claimLower := lowerData claimText
  let claimWords := wordTokens claimLower
  articles.foldl (fun acc article =>
    let titleLower := lowerData article.title
    let titleWords := wordTokens titleLower
    let overlap := claimWords.filter (fun w => titleWords.contains w)
    if overlap.length ≥ 2 then
      let hasSupport := supportTerms.any (fun t => containsSeq t.data titleLower)
      let hasContradict := contradictTerms.any (fun t => containsSeq t.data titleLower)
      { supportingCount :=
          acc.supportingCount + (if hasSupport && !hasContradict then 1 else 0)
        contradictingCount :=
          acc.contradictingCount + (if hasContradict && !hasSupport then 1 else 0)
        relevantArticles := acc.relevantArticles ++ [article] }
    else acc)
    { supportingCount := 0, contradictingCount := 0, relevantArticles := [] }

/-- Evidence built from one relevant PubMed article. -/
def articleEvidence (article : PubMedArticle) : Evidence :=
  { url := "https://pubmed.ncbi.nlm.nih.gov/" ++ article.uid ++ "/"
    sourceName := "PubMed: " ++ article.source
    quote := some article.title
    datePublished := some article.pubdate
    peerReviewed := none }

/-- The fixed caveats every PubMed verification carries. -/
def pubmedCaveats : List String :=
  ["Based on article title analysis only - full text review recommended",
   "Scientific consensus may evolve as new research emerges",
   "Individual studies may have limitations",
   "Consult healthcare professionals for medical advice"]

/-- The Verification `verifyWithPubMed` builds from a non-empty relevance
analysis: evidence from the first 5 relevant articles, and the conservative
rating policy over the support/contradiction tallies of ALL relevant
articles. -/
def pubmedVerification (now : String) (claim : Claim) (analysis : RelevanceAnalysis) :
    Verification :=
  let evidence := (analysis.relevantArticles.take 5).map articleEvidence
  let n := analysis.relevantArticles.length
  if 3 ≤ n then
    if analysis.supportingCount > analysis.contradictingCount * 2 then
      { claimId := claim.id
        rating := .mostly_true
        confidence := min 0.7 (0.5 + (analysis.supportingCount : ℚ) * 0.05)
        summary := "Found " ++ toString n ++ " relevant PubMed studies, with " ++
          toString analysis.supportingCount ++ " appearing to support this claim."
        evidence := evidence
        checkedAt := now
        caveats := pubmedCaveats }
    else if analysis.contradictingCount > analysis.supportingCount * 2 then
      { claimId := claim.id
        rating := .mostly_false
        confidence := min 0.7 (0.5 + (analysis.contradictingCount : ℚ) * 0.05)
        summary := "Found " ++ toString n ++ " relevant PubMed studies, with " ++
          toString analysis.contradictingCount ++ " appearing to contradict this claim."
        evidence := evidence
        checkedAt := now
        caveats := pubmedCaveats }
    else
      { claimId := claim.id
        rating := .mixed
        confidence := 0.5
        summary := "Found " ++ toString n ++
          " relevant PubMed studies with mixed findings on this claim."
        evidence := evidence
        checkedAt := now
        caveats := pubmedCaveats }
  else
    { claimId := claim.id
      rating := .unverified
      confidence := 0.4
      summary := "Found " ++ toString n ++
        " potentially relevant PubMed article(s). More research may be needed to verify this claim."
      evidence := evidence
      checkedAt := now
      caveats := pubmedCaveats }

/-- The pure core of `verifyWithPubMed`: `articleIds` is the search response
and `articles` the summary response; the boolean of the result records whether
the upstream search call was issued (it is not when the health gate fails). -/
def verifyWithPubMed (now : String) (claim : Claim) (articleIds : List String)
    (articles : List PubMedArticle) : Option Verification × Bool :=
  if !isHealthClaim claim.text then (none, Bool.false)
  else if articleIds.isEmpty then (none, Bool.true)
  else if articles.isEmpty then (none, Bool.true)
  else
    let analysis := analyzeArticleRelevance claim.text articles
    if analysis.relevantArticles.isEmpty then (none, Bool.true)
    else (some (pubmedVerification now claim analysis), Bool.true)

/-! ## Combiner (verificationService.ts) -/

/-- The default Verification when nothing was found (`createUnverifiedResult`). -/
def createUnverifiedResult (now : String) (claim : Claim) : Verification :=
  { claimId := claim.id
    rating := .unverified
    confidence := 0.1
    summary := "No fact-checks found for this claim. This doesn't mean it's false or true - it simply hasn't been verified by known fact-checkers."
    evidence := []
    checkedAt := now
    caveats := ["No existing fact-checks found", "Consider verifying with primary sources"] }

/-- Merge one further source's evidence into the accumulated list
(`mergeEvidence`): keep items of `secondary` with a truthy (non-empty) URL not
among the accumulated URLs, then cap at 10. -/
def mergeEvidence (primary secondary : List Evidence) : List Evidence :=
  let seen := primary.map (fun e => e.url)
  let unique := secondary.filter (fun e => !(e.url == "") && !(seen.contains e.url))
  (primary ++ unique).take 10

/-- Stable insertion step for the descending-by-confidence sort: a candidate
is placed before the first one of smaller or equal confidence, so earlier
candidates stay before later candidates of equal confidence. -/
def insertByConf (v : Verification) : List Verification → List Verification
  | [] => [v]
  | w :: t => if w.confidence ≤ v.confidence then v :: w :: t else w :: insertByConf v t

/-- The stable descending sort by confidence the combiner applies,
as a stable insertion sort (extensionally the stable JS
`sort((a, b) => b.confidence - a.confidence)`: a stable sort under a total
preorder is unique). -/
def sortByConfidence : List Verification → List Verification
  | [] => []
  | v :: t => insertByConf v (sortByConfidence t)

/-- The body of `combineVerifications` once the sorted candidate list is
non-empty, split out for the proofs: evidence merged from the primary through
the remaining candidates, caveats unioned in sorted order and capped at 5,
summary suffixed with the source count when more than one candidate. -/
def combinePrimary (now : String) (claim : Claim) (validCount : Nat)
    (primary : Verification) (rest : List Verification) : Verification :=
  let allEvidence := rest.foldl (fun acc r => mergeEvidence acc r.evidence) primary.evidence
  let allCaveats := (primary :: rest).foldl
    (fun acc r => r.caveats.foldl (fun a c => if a.contains c then a else a ++ [c]) acc) []
  let summary := primary.summary ++
    (if validCount > 1 then " (Verified against " ++ toString validCount ++ " sources)" else "")
  { claimId := claim.id
    rating := primary.rating
    confidence := primary.confidence
    summary := summary
    evidence := allEvidence
    checkedAt := now
    caveats := allCaveats.take 5 }

/-- Combine the per-source results (`combineVerifications`): drop the nulls,
and if nothing remains return the default unverified result; otherwise sort by
confidence descending (stable) and build the result around the top candidate. -/
def combineVerifications (now : String) (claim : Claim)
    (results : List (Option Verification)) : Verification :=
  let validResults := results.filterMap id
  match sortByConfidence validResults with
  | [] => createUnverifiedResult now claim
  | primary :: rest => combinePrimary now claim validResults.length primary rest

/-! ## Orchestrator and batch scheduler (verificationService.ts) -/

/-- The NodeCache, as explicit state: newest entry first, lookup by key. -/
abbrev Cache := List (String × Verification)

/-- The environment a verification run reads: configured credentials and the
outcome of each adapter on each claim (`none` is "absent": nothing relevant,
an error swallowed at the stage boundary, or an exhausted retry). -/
structure Env where
  googleApiKey : Option String
  openaiApiKey : Option String
  now : String
  google : Claim → Option Verification
  pubmed : Claim → Option Verification
  wiki : Claim → Option Verification
  llm : Claim → Option Verification

/-- The truthy-and-not-placeholder guard on an environment credential. -/
def keyUsable (k : Option String) (placeholder : String) : Bool :=
  match k with
  | none => Bool.false
  | some s => !(s == "") && !(s == placeholder)

/-- One claim through the full pipeline (`verifyClaim`): cache check, Google
stage (kept only when its rating is not unverified), PubMed stage behind the
health gate, Wikipedia stage (kept only with at least one evidence item), LLM
fallback when nothing non-unverified was gathered, then combine and cache.
Returns ((verification, cached), cache after the call). -/
def verifyClaim (env : Env) (cache : Cache) (claim : Claim) :
    (Verification × Bool) × Cache :=
  let cacheKey := getCacheKey claim
  match cache.lookup cacheKey with
  | some cached => (({ cached with claimId := claim.id }, Bool.true), cache)
  | none =>
    let results0 : List Verification :=
      if keyUsable env.googleApiKey "your_google_api_key_here" then
        match env.google claim with
        | some g => if g.rating ≠ .unverified then [g] else []
        | none => []
      else []
    let results1 := results0 ++
      (if isHealthClaim claim.text then (env.pubmed claim).toList else [])
    let results2 := results1 ++
      (match env.wiki claim with
       | some w => if w.evidence.length > 0 then [w] else []
       | none => [])
    let results3 :=
      if results2.isEmpty || results2.all (fun r => r.rating == .unverified) then
        if keyUsable env.openaiApiKey "your_openai_api_key_here" then
          results2 ++ (env.llm claim).toList
        else results2
      else results2
    let verification := combineVerifications env.now claim (results3.map some)
    ((verification, Bool.false), (cacheKey, verification) :: cache)

/-- The sequential batch loop of `verifyClaims`, carrying the position of the
current claim: returns the per-claim (verification, cached) pairs in order, the
positions after which the fixed 500ms pause was inserted (a cache miss that is
not the last claim), and the final cache. -/
def runBatch (env : Env) : Cache → Nat → List Claim →
    List (Verification × Bool) × List Nat × Cache
  | cache, _, [] => ([], [], cache)
  | cache, i, claim :: rest =>
    let step := verifyClaim env cache claim
    let restRun := runBatch env step.2 (i + 1) rest
    (step.1 :: restRun.1,
     (if !step.1.2 && !rest.isEmpty then [i] else []) ++ restRun.2.1,
     restRun.2.2)

/-- `verifyClaims`: the ordered verification list, the cache-hit count, the
pause positions and the final cache. -/
def verifyClaims (env : Env) (cache : Cache) (claims : List Claim) :
    (List Verification × Nat) × List Nat × Cache :=
  let run := runBatch env cache 0 claims
  ((run.1.map (fun r => r.1), run.1.countP (fun r => r.2)), run.2)

/-! ## Helper lemmas -/

/-- Inserting into the sorted list permutes consing. -/
lemma insertByConf_perm (v : Verification) (l : List Verification) :
    List.Perm (insertByConf v l) (v :: l) := by
  induction l with
  | nil => exact List.Perm.refl _
  | cons w t ih =>
    simp only [insertByConf]
    split
    · exact List.Perm.refl _
    · exact List.Perm.trans (ih.cons w) (List.Perm.swap v w t)

/-- The sorted output is a permutation of the candidate list. -/
lemma sortByConfidence_perm (l : List Verification) :
    List.Perm (sortByConfidence l) l := by
  induction l with
  | nil => exact List.Perm.refl _
  | cons v t ih =>
    exact List.Perm.trans (insertByConf_perm v (sortByConfidence t)) (ih.cons v)

/-- Inserting keeps the list pairwise descending in confidence. -/
lemma insertByConf_pairwise (v : Verification) (l : List Verification)
    (h : l.Pairwise (fun a b => b.confidence ≤ a.confidence)) :
    (insertByConf v l).Pairwise (fun a b => b.confidence ≤ a.confidence) := by
  induction l with
  | nil => simp [insertByConf]
  | cons w t ih =>
    rw [List.pairwise_cons] at h
    simp only [insertByConf]
    split
    · rename_i hle
      rw [List.pairwise_cons]
      refine ⟨?_, List.pairwise_cons.mpr h⟩
      intro x hx
      rcases List.mem_cons.mp hx with rfl | hxt
      · exact hle
      · exact le_trans (h.1 x hxt) hle
    · rename_i hgt
      rw [List.pairwise_cons]
      refine ⟨?_, ih h.2⟩
      intro x hx
      have hx' : x ∈ v :: t := (insertByConf_perm v t).mem_iff.mp hx
      rcases List.mem_cons.mp hx' with rfl | hxt
      · exact le_of_not_le hgt
      · exact h.1 x hxt

/-- The sorted output is pairwise descending in confidence. -/
lemma sortByConfidence_pairwise (l : List Verification) :
    (sortByConfidence l).Pairwise (fun a b => b.confidence ≤ a.confidence) := by
  induction l with
  | nil => simp [sortByConfidence]
  | cons v t ih => exact insertByConf_pairwise v (sortByConfidence t) ih

/-- The cache key reads only the claim text. -/
lemma getCacheKey_congr {c1 c2 : Claim} (h : c1.text = c2.text) :
    getCacheKey c1 = getCacheKey c2 := by
  simp only [getCacheKey, h]

/-! ## C5 — cache key derivation -/

/-- C5: cache key derivation is the total pipeline lowercase → strip
non-word/non-space → collapse whitespace → trim → first 200 characters →
namespace tag, it is a function of the claim text alone (claims equal in text
but different in id, context or sourceUrl get equal keys), and the empty text
yields the bare namespace tag. -/
theorem getCacheKey_spec :
    (∀ claim : Claim,
      getCacheKey claim = "claim:" ++ String.mk
        ((trimChars (collapseWs
          ((claim.text.data.map Char.toLower).filter
            (fun c => isWordChar c || isSpaceChar c)))).take 200)) ∧
    (∀ c1 c2 : Claim, c1.text = c2.text → getCacheKey c1 = getCacheKey c2) ∧
    (∀ claim : Claim, claim.text = "" → getCacheKey claim = "claim:") := by
  refine ⟨fun claim => rfl, fun c1 c2 h => getCacheKey_congr h, fun claim h => ?_⟩
  simp [getCacheKey, normalizeClaimText, h, collapseWs, trimChars]

/-- C5 witness: two claims with the same text and different id, context and
sourceUrl derive the same key. -/
theorem getCacheKey_spec_witness :
    getCacheKey ⟨"id-a", "Hello,   World!", none, none⟩ =
      getCacheKey ⟨"id-b", "Hello,   World!", some "ctx", some "http://u"⟩ :=
  getCacheKey_spec.2.1 ⟨"id-a", "Hello,   World!", none, none⟩
    ⟨"id-b", "Hello,   World!", some "ctx", some "http://u"⟩ rfl

/-! ## C3 — Google rating mapper on "Half True" -/

/-- C3: the code maps "Half True" to `verified`, not `mixed`: the bare-true
branch runs first and excludes only "false", "mostly" and "partly", so a
string containing "half" together with "true" never reaches the mixed branch
(against the claim and the source's own comment on that branch). -/
theorem mapRating_half_true_is_verified :
    mapRating "Half True" = Rating.verified := by decide

/-! ## C9 — zero candidates resolve to the canonical unverified result -/

/-- C9: when the cache misses and every adapter stage contributes absent,
`verifyClaim` resolves (never throws: the embedding is a total function) to
the canonical unverified Verification: rating unverified, confidence 0.1,
empty evidence and the fixed caveats, flagged as not cached. -/
theorem verifyClaim_all_absent (env : Env) (cache : Cache) (claim : Claim)
    (hmiss : cache.lookup (getCacheKey claim) = none)
    (hg : env.google claim = none) (hp : env.pubmed claim = none)
    (hw : env.wiki claim = none) (hl : env.llm claim = none) :
    (verifyClaim env cache claim).1.2 = Bool.false ∧
    (verifyClaim env cache claim).1.1.rating = Rating.unverified ∧
    (verifyClaim env cache claim).1.1.confidence = 0.1 ∧
    (verifyClaim env cache claim).1.1.evidence = [] ∧
    (verifyClaim env cache claim).1.1.caveats =
      ["No existing fact-checks found", "Consider verifying with primary sources"] ∧
    (verifyClaim env cache claim).1.1 = createUnverifiedResult env.now claim := by
  have hcomb : verifyClaim env cache claim =
      ((createUnverifiedResult env.now claim, Bool.false),
        (getCacheKey claim, createUnverifiedResult env.now claim) :: cache) := by
    simp only [verifyClaim, hmiss, hg, hp, hw, hl, Option.toList_none]
    simp [combineVerifications, sortByConfidence, createUnverifiedResult]
  rw [hcomb]
  simp [createUnverifiedResult]

/-- C9 witness: a concrete claim, an empty cache and an environment whose
adapters all return absent. -/
theorem verifyClaim_all_absent_witness :
    (verifyClaim ⟨none, none, "t0", fun _ => none, fun _ => none, fun _ => none,
        fun _ => none⟩ [] ⟨"c9", "nothing known", none, none⟩).1.1.rating =
      Rating.unverified :=
  (verifyClaim_all_absent
    ⟨none, none, "t0", fun _ => none, fun _ => none, fun _ => none, fun _ => none⟩
    [] ⟨"c9", "nothing known", none, none⟩ rfl rfl rfl rfl rfl).2.1

/-! ## C6 — verifying the same text twice within the TTL window -/

/-- C6: verifying two claims with the same text back to back (the cache entry
written by the first call still within its TTL window) flags the second call
cached, reuses the first result's rating, evidence and summary verbatim, and
rewrites only the claimId to the second claim's id. -/
theorem verifyClaim_second_call_cached (env : Env) (cache : Cache) (c1 c2 : Claim)
    (h : c1.text = c2.text) :
    (verifyClaim env (verifyClaim env cache c1).2 c2).1.2 = Bool.true ∧
    (verifyClaim env (verifyClaim env cache c1).2 c2).1.1.rating =
      (verifyClaim env cache c1).1.1.rating ∧
    (verifyClaim env (verifyClaim env cache c1).2 c2).1.1.evidence =
      (verifyClaim env cache c1).1.1.evidence ∧
    (verifyClaim env (verifyClaim env cache c1).2 c2).1.1.summary =
      (verifyClaim env cache c1).1.1.summary ∧
    (verifyClaim env (verifyClaim env cache c1).2 c2).1.1.claimId = c2.id := by
  have hkey : getCacheKey c2 = getCacheKey c1 := getCacheKey_congr h.symm
  cases hc : List.lookup (getCacheKey c1) cache with
  | some v =>
    simp only [verifyClaim, hkey, hc]
    simp
  | none =>
    simp only [verifyClaim, hkey, hc]
    simp [List.lookup]

/-- C6 witness: the same text under two different ids, from an empty cache in
an environment where every adapter returns absent. -/
theorem verifyClaim_second_call_cached_witness :
    (verifyClaim ⟨none, none, "t0", fun _ => none, fun _ => none, fun _ => none,
        fun _ => none⟩
      (verifyClaim ⟨none, none, "t0", fun _ => none, fun _ => none, fun _ => none,
          fun _ => none⟩ [] ⟨"a", "same text", none, none⟩).2
      ⟨"b", "same text", none, none⟩).1.2 = Bool.true :=
  (verifyClaim_second_call_cached
    ⟨none, none, "t0", fun _ => none, fun _ => none, fun _ => none, fun _ => none⟩
    [] ⟨"a", "same text", none, none⟩ ⟨"b", "same text", none, none⟩ rfl).1

/-! ## C1 — the Combiner selects the top-confidence candidate -/

/-- C1: for a non-empty candidate list the Combiner's rating and confidence
are exactly those of the head of the stable descending sort by confidence
(ties preserving call order), and that confidence is the maximum over the
candidates: it is one of the candidate confidences and bounds them all. -/
theorem combineVerifications_top_confidence (now : String) (claim : Claim)
    (results : List (Option Verification)) (h : results.filterMap id ≠ []) :
    ∃ primary rest,
      sortByConfidence (results.filterMap id) = primary :: rest ∧
      (combineVerifications now claim results).rating = primary.rating ∧
      (combineVerifications now claim results).confidence = primary.confidence ∧
      primary ∈ results.filterMap id ∧
      ∀ v ∈ results.filterMap id,
        v.confidence ≤ (combineVerifications now claim results).confidence := by
  have hperm := sortByConfidence_perm (results.filterMap id)
  cases hs : sortByConfidence (results.filterMap id) with
  | nil =>
    rw [hs] at hperm
    exact absurd hperm.symm.eq_nil h
  | cons primary rest =>
    rw [hs] at hperm
    have hpair := sortByConfidence_pairwise (results.filterMap id)
    rw [hs, List.pairwise_cons] at hpair
    have hcomb : combineVerifications now claim results =
        combinePrimary now claim (results.filterMap id).length primary rest := by
      simp only [combineVerifications, hs]
    refine ⟨primary, rest, rfl, ?_, ?_, ?_, ?_⟩
    · rw [hcomb]; rfl
    · rw [hcomb]; rfl
    · exact hperm.mem_iff.mp (List.mem_cons_self primary rest)
    · intro v hv
      have hv' : v ∈ primary :: rest := hperm.mem_iff.mpr hv
      have hconf : (combineVerifications now claim results).confidence =
          primary.confidence := by rw [hcomb]; rfl
      rw [hconf]
      rcases List.mem_cons.mp hv' with rfl | hvr
      · exact le_refl _
      · exact hpair.1 v hvr

/-- A concrete mid-confidence candidate used by witnesses. -/
def candA : Verification := ⟨"a", Rating.mixed, 0.5, "sa", [], "t", []⟩

/-- A concrete high-confidence candidate used by witnesses. -/
def candB : Verification := ⟨"b", Rating.false, 0.8, "sb", [], "t", []⟩

/-- C1 witness: two concrete candidates with distinct confidences. -/
theorem combineVerifications_top_confidence_witness :
    ∃ primary rest,
      sortByConfidence ([some candA, some candB].filterMap id) = primary :: rest ∧
      (combineVerifications "t0" ⟨"w", "x", none, none⟩
        [some candA, some candB]).rating = primary.rating ∧
      (combineVerifications "t0" ⟨"w", "x", none, none⟩
        [some candA, some candB]).confidence = primary.confidence ∧
      primary ∈ [some candA, some candB].filterMap id ∧
      ∀ v ∈ [some candA, some candB].filterMap id,
        v.confidence ≤
          (combineVerifications "t0" ⟨"w", "x", none, none⟩
            [some candA, some candB]).confidence :=
  combineVerifications_top_confidence "t0" ⟨"w", "x", none, none⟩
    [some candA, some candB] (by decide)

/-! ## C2 — evidence merging -/

/-- A merge step never leaves more than 10 items. -/
lemma mergeEvidence_length_le (p s : List Evidence) :
    (mergeEvidence p s).length ≤ 10 := by
  simp only [mergeEvidence, List.length_take]
  exact min_le_left _ _

/-- Folding merge steps over further candidates keeps the 10-item cap. -/
lemma foldl_mergeEvidence_length_le (rest : List Verification) :
    ∀ acc : List Evidence, acc.length ≤ 10 →
      (rest.foldl (fun a r => mergeEvidence a r.evidence) acc).length ≤ 10 := by
  induction rest with
  | nil => exact fun acc h => h
  | cons r t ih =>
    intro acc _
    exact ih (mergeEvidence acc r.evidence) (mergeEvidence_length_le _ _)

/-- A merge step preserves URL distinctness when both lists have it. -/
lemma mergeEvidence_nodup {p s : List Evidence}
    (hp : (p.map (fun e => e.url)).Nodup) (hs : (s.map (fun e => e.url)).Nodup) :
    ((mergeEvidence p s).map (fun e => e.url)).Nodup := by
  simp only [mergeEvidence]
  rw [List.map_take]
  refine List.Nodup.sublist (List.take_sublist _ _) ?_
  rw [List.map_append, List.nodup_append]
  refine ⟨hp, ?_, ?_⟩
  · exact List.Nodup.sublist (List.Sublist.map _ (List.filter_sublist s)) hs
  · intro a hap hau
    obtain ⟨e, he, rfl⟩ := List.mem_map.mp hau
    have hpred := List.of_mem_filter he
    simp only [Bool.and_eq_true, Bool.not_eq_true'] at hpred
    have hnot : e.url ∉ p.map (fun e => e.url) := by
      intro hmem
      have : (p.map (fun e => e.url)).contains e.url = true :=
        List.elem_eq_true_of_mem hmem
      rw [hpred.2] at this
      exact Bool.false_ne_true this
    exact hnot hap

/-- Folding merge steps preserves URL distinctness. -/
lemma foldl_mergeEvidence_nodup (rest : List Verification) :
    ∀ acc : List Evidence, (acc.map (fun e => e.url)).Nodup →
      (∀ r ∈ rest, (r.evidence.map (fun e => e.url)).Nodup) →
      (((rest.foldl (fun a r => mergeEvidence a r.evidence) acc).map
        (fun e => e.url)).Nodup) := by
  induction rest with
  | nil => exact fun acc h _ => h
  | cons r t ih =>
    intro acc hacc hall
    exact ih (mergeEvidence acc r.evidence)
      (mergeEvidence_nodup hacc (hall r (List.mem_cons_self r t)))
      (fun r' hr' => hall r' (List.mem_cons_of_mem r hr'))

/-- Evidence item with a given URL, used by the C2 counterexample. -/
def mkEv (u : String) : Evidence := ⟨u, "src", none, none, none⟩

/-- Twelve evidence items over eleven distinct URLs, "u1" repeated. -/
def bigEvidence : List Evidence :=
  ["u1", "u2", "u3", "u4", "u5", "u6", "u7", "u8", "u9", "u10", "u11", "u1"].map mkEv

/-- A single candidate whose evidence union exceeds 10 items and repeats a URL. -/
def cexCandidate : Verification := ⟨"c", Rating.verified, 0.9, "s", bigEvidence, "t", []⟩

/-- C2 counterexample: a candidate set (one candidate) whose union of evidence
exceeds 10 items and contains a duplicate URL, for which the combined result
keeps more than 10 items and a duplicate URL: with a single candidate the
primary's evidence is passed through without the cap or the dedup. -/
theorem combineVerifications_evidence_cex :
    10 < (combineVerifications "t0" ⟨"id0", "x", none, none⟩
        [some cexCandidate]).evidence.length ∧
    ¬ ((combineVerifications "t0" ⟨"id0", "x", none, none⟩
        [some cexCandidate]).evidence.map (fun e => e.url)).Nodup := by
  decide

/-- C2 amended: the cap holds only once at least two candidates are present
(every merge step truncates to 10); the per-step dedup keeps, from each
non-primary candidate in sorted order, only items with a non-empty URL not
already accumulated, so URL distinctness of the result needs every candidate's
own list to be duplicate-free; and with a single candidate the primary's
evidence passes through unchanged. -/
theorem combineVerifications_evidence_amended (now : String) (claim : Claim)
    (results : List (Option Verification)) :
    (∀ primary r rest,
        sortByConfidence (results.filterMap id) = primary :: r :: rest →
        (combineVerifications now claim results).evidence.length ≤ 10) ∧
    ((∀ v ∈ results.filterMap id, (v.evidence.map (fun e => e.url)).Nodup) →
        ((combineVerifications now claim results).evidence.map
          (fun e => e.url)).Nodup) ∧
    (∀ primary, sortByConfidence (results.filterMap id) = [primary] →
        (combineVerifications now claim results).evidence = primary.evidence) := by
  refine ⟨?_, ?_, ?_⟩
  · intro primary r rest hs
    have hcomb : combineVerifications now claim results =
        combinePrimary now claim (results.filterMap id).length primary (r :: rest) := by
      simp only [combineVerifications, hs]
    rw [hcomb]
    show ((r :: rest).foldl (fun a x => mergeEvidence a x.evidence)
      primary.evidence).length ≤ 10
    rw [List.foldl_cons]
    exact foldl_mergeEvidence_length_le rest _ (mergeEvidence_length_le _ _)
  · intro hall
    have hperm := sortByConfidence_perm (results.filterMap id)
    cases hs : sortByConfidence (results.filterMap id) with
    | nil =>
      simp only [combineVerifications, hs]
      simp [createUnverifiedResult]
    | cons primary rest =>
      rw [hs] at hperm
      have hcomb : combineVerifications now claim results =
          combinePrimary now claim (results.filterMap id).length primary rest := by
        simp only [combineVerifications, hs]
      rw [hcomb]
      show ((rest.foldl (fun a x => mergeEvidence a x.evidence)
        primary.evidence).map (fun e => e.url)).Nodup
      refine foldl_mergeEvidence_nodup rest primary.evidence ?_ ?_
      · exact hall primary (hperm.mem_iff.mp (List.mem_cons_self primary rest))
      · intro r hr
        exact hall r (hperm.mem_iff.mp (List.mem_cons_of_mem primary hr))
  · intro primary hs
    have hcomb : combineVerifications now claim results =
        combinePrimary now claim (results.filterMap id).length primary [] := by
      simp only [combineVerifications, hs]
    rw [hcomb]
    rfl

/-- C2 amended witness: two concrete candidates, the primary holding twelve
evidence items: the merged result stays within the 10-item cap. -/
theorem combineVerifications_evidence_amended_witness :
    (combineVerifications "t0" ⟨"id0", "x", none, none⟩
      [some cexCandidate, some candA]).evidence.length ≤ 10 :=
  (combineVerifications_evidence_amended "t0" ⟨"id0", "x", none, none⟩
    [some cexCandidate, some candA]).1 cexCandidate candA []
    (by norm_num [sortByConfidence, insertByConf, cexCandidate, candA])

/-! ## C4 — Google confidence heuristic -/

/-- A list deduplicates to one element exactly when all its elements agree. -/
lemma dedup_length_eq_one_iff {α : Type} [DecidableEq α] {l : List α} (hl : l ≠ []) :
    l.dedup.length = 1 ↔ ∀ a ∈ l, ∀ b ∈ l, a = b := by
  constructor
  · intro h a ha b hb
    obtain ⟨c, hc⟩ := List.length_eq_one.mp h
    have h1 := List.mem_dedup.mpr ha
    have h2 := List.mem_dedup.mpr hb
    rw [hc, List.mem_singleton] at h1 h2
    rw [h1, h2]
  · intro h
    obtain ⟨c, t, rfl⟩ := List.exists_cons_of_ne_nil hl
    have hc : c ∈ c :: t := List.mem_cons_self c t
    have hmem : ∀ x, x ∈ (c :: t).dedup → x = c := fun x hx =>
      h x (List.mem_dedup.mp hx) c hc
    have hcd : c ∈ (c :: t).dedup := List.mem_dedup.mpr hc
    have hnd := List.nodup_dedup (c :: t)
    cases hd : (c :: t).dedup with
    | nil => rw [hd] at hcd; exact absurd hcd (List.not_mem_nil c)
    | cons x xs =>
      cases xs with
      | nil => rfl
      | cons y ys =>
        exfalso
        rw [hd] at hmem hnd
        have hx := hmem x (List.mem_cons_self _ _)
        have hy := hmem y (List.mem_cons_of_mem _ (List.mem_cons_self _ _))
        rw [List.nodup_cons] at hnd
        exact hnd.1 (by rw [hx, hy]; exact List.mem_cons_self _ _)

/-- C4: the Google adapter's confidence is 0.6 for exactly one review and for
two or more reviews `min(0.9, 0.5 + 0.1 × reviewCount)` plus a 0.1 bonus when
all reviews map to the same rating, capped at 0.95; and for a response whose
top claim has 3 reviews all rated "False" the adapter returns a Verification
with rating `false` and confidence 0.9. -/
theorem calculateConfidence_spec :
    (∀ reviews : List GoogleClaimReview, reviews.length = 1 →
      calculateConfidence reviews = 0.6) ∧
    (∀ reviews : List GoogleClaimReview, 2 ≤ reviews.length →
      calculateConfidence reviews =
        min 0.95 (min 0.9 (0.5 + (reviews.length : ℚ) * 0.1) +
          (if ∀ a ∈ reviews, ∀ b ∈ reviews,
              mapRating a.textualRating = mapRating b.textualRating
            then (0.1 : ℚ) else 0))) ∧
    (∀ (now : String) (claim : Claim) (key topText : String)
        (rev : GoogleClaimReview), key ≠ "" → rev.textualRating = "False" →
      ∃ v, searchFactChecks now claim key [⟨topText, [rev, rev, rev]⟩] = some v ∧
        v.rating = Rating.false ∧ v.confidence = 0.9) := by
  refine ⟨?_, ?_, ?_⟩
  · intro reviews h1
    simp [calculateConfidence, h1]
  · intro reviews h2
    have hmapne : reviews.map (fun r => mapRating r.textualRating) ≠ [] := by
      intro h
      rw [List.map_eq_nil_iff] at h
      rw [h] at h2
      simp at h2
    have h0 : (reviews.length == 0) = false := by
      simp only [beq_eq_false_iff_ne, ne_eq]
      omega
    have h1 : (reviews.length == 1) = false := by
      simp only [beq_eq_false_iff_ne, ne_eq]
      omega
    simp only [calculateConfidence, h0, h1, Bool.false_eq_true, if_false]
    congr 1
    congr 1
    have hiff :
        ((reviews.map (fun r => mapRating r.textualRating)).dedup.length == 1) = true ↔
          (∀ a ∈ reviews, ∀ b ∈ reviews,
            mapRating a.textualRating = mapRating b.textualRating) := by
      rw [beq_iff_eq, dedup_length_eq_one_iff hmapne]
      constructor
      · intro h a ha b hb
        exact h _ (List.mem_map_of_mem _ ha) _ (List.mem_map_of_mem _ hb)
      · intro h x hx y hy
        obtain ⟨a, ha, rfl⟩ := List.mem_map.mp hx
        obtain ⟨b, hb, rfl⟩ := List.mem_map.mp hy
        exact h a ha b hb
    by_cases hc : ∀ a ∈ reviews, ∀ b ∈ reviews,
        mapRating a.textualRating = mapRating b.textualRating
    · rw [if_pos (hiff.mpr hc), if_pos hc]
    · rw [if_neg ?_, if_neg hc]
      intro hh
      exact hc (hiff.mp hh)
  · intro now claim key topText rev hkey hrev
    have hmap : mapRating rev.textualRating = Rating.false := by
      rw [hrev]; decide
    have hsf : searchFactChecks now claim key [⟨topText, [rev, rev, rev]⟩] =
        some
          { claimId := claim.id
            rating := aggregateRating
              ([rev, rev, rev].map (fun r => mapRating r.textualRating))
            confidence := calculateConfidence [rev, rev, rev]
            summary := rev.publisherName ++ " rated this claim as \"" ++
              rev.textualRating ++ "\". " ++
              (toString ([rev, rev, rev] : List GoogleClaimReview).length ++
                " fact-checkers have reviewed this claim.")
            evidence := [rev, rev, rev].map (fun review =>
              { url := review.url
                sourceName := review.publisherName
                quote := some review.title
                datePublished := some review.reviewDate
                peerReviewed := some Bool.false })
            checkedAt := now } := by
      simp [searchFactChecks, if_neg hkey]
    refine ⟨_, hsf, ?_, ?_⟩
    · show aggregateRating ([rev, rev, rev].map (fun r => mapRating r.textualRating)) =
        Rating.false
      simp only [List.map_cons, List.map_nil, hmap]
      decide
    · show calculateConfidence [rev, rev, rev] = 0.9
      simp only [calculateConfidence, List.length_cons, List.length_nil,
        List.map_cons, List.map_nil, hmap]
      norm_num [List.dedup]

/-- A concrete "False"-rated review for the C4 witness. -/
def sampleFalseReview : GoogleClaimReview :=
  ⟨"False", "https://factcheck.example/x", "Snopes", "Title", "2020-01-01"⟩

/-- C4 witness: three concrete "False" reviews yield rating false and
confidence 0.9. -/
theorem calculateConfidence_spec_witness :
    ∃ v, searchFactChecks "t0" ⟨"cid", "x", none, none⟩ "k"
        [⟨"topic", [sampleFalseReview, sampleFalseReview, sampleFalseReview]⟩] =
        some v ∧ v.rating = Rating.false ∧ v.confidence = 0.9 :=
  calculateConfidence_spec.2.2 "t0" ⟨"cid", "x", none, none⟩ "k" "topic"
    sampleFalseReview (by decide) rfl

/-! ## C7 and C10 — PubMed gating, rating policy and evidence cap -/

/-- Reduction of `verifyWithPubMed` once every gate passes. -/
lemma verifyWithPubMed_some (now : String) (claim : Claim) (ids : List String)
    (arts : List PubMedArticle) (hh : isHealthClaim claim.text = Bool.true)
    (hids : ids.isEmpty = Bool.false) (harts : arts.isEmpty = Bool.false)
    (hrel : (analyzeArticleRelevance claim.text arts).relevantArticles.isEmpty =
      Bool.false) :
    verifyWithPubMed now claim ids arts =
      (some (pubmedVerification now claim (analyzeArticleRelevance claim.text arts)),
        Bool.true) := by
  simp [verifyWithPubMed, hh, hids, harts, hrel]

/-- At least three relevant articles mean the gates all pass. -/
lemma pubmed_gates_of_relevant (claim : Claim) (arts : List PubMedArticle)
    (h : 1 ≤ (analyzeArticleRelevance claim.text arts).relevantArticles.length) :
    arts.isEmpty = Bool.false ∧
    (analyzeArticleRelevance claim.text arts).relevantArticles.isEmpty = Bool.false := by
  constructor
  · cases arts with
    | nil => simp [analyzeArticleRelevance] at h
    | cons a t => rfl
  · cases he : (analyzeArticleRelevance claim.text arts).relevantArticles with
    | nil => rw [he] at h; simp at h
    | cons r t => rfl

/-- C7: a claim with no health keyword makes the PubMed adapter return absent
without issuing the upstream call; for a health claim, with at least 3
relevant articles the rating is mostly_true when supporting > 2 ×
contradicting (confidence capped at 0.7), mostly_false when contradicting >
2 × supporting (confidence capped at 0.7), and mixed otherwise (confidence
0.5); with fewer than 3 relevant articles the rating stays unverified. -/
theorem verifyWithPubMed_policy :
    (∀ (now : String) (claim : Claim) (ids : List String) (arts : List PubMedArticle),
      isHealthClaim claim.text = Bool.false →
      verifyWithPubMed now claim ids arts = (none, Bool.false)) ∧
    (∀ (now : String) (claim : Claim) (ids : List String) (arts : List PubMedArticle),
      isHealthClaim claim.text = Bool.true → ids ≠ [] →
      3 ≤ (analyzeArticleRelevance claim.text arts).relevantArticles.length →
      (analyzeArticleRelevance claim.text arts).supportingCount >
        (analyzeArticleRelevance claim.text arts).contradictingCount * 2 →
      ∃ v, verifyWithPubMed now claim ids arts = (some v, Bool.true) ∧
        v.rating = Rating.mostly_true ∧ v.confidence ≤ 0.7) ∧
    (∀ (now : String) (claim : Claim) (ids : List String) (arts : List PubMedArticle),
      isHealthClaim claim.text = Bool.true → ids ≠ [] →
      3 ≤ (analyzeArticleRelevance claim.text arts).relevantArticles.length →
      (analyzeArticleRelevance claim.text arts).contradictingCount >
        (analyzeArticleRelevance claim.text arts).supportingCount * 2 →
      ∃ v, verifyWithPubMed now claim ids arts = (some v, Bool.true) ∧
        v.rating = Rating.mostly_false ∧ v.confidence ≤ 0.7) ∧
    (∀ (now : String) (claim : Claim) (ids : List String) (arts : List PubMedArticle),
      isHealthClaim claim.text = Bool.true → ids ≠ [] →
      3 ≤ (analyzeArticleRelevance claim.text arts).relevantArticles.length →
      ¬ ((analyzeArticleRelevance claim.text arts).supportingCount >
        (analyzeArticleRelevance claim.text arts).contradictingCount * 2) →
      ¬ ((analyzeArticleRelevance claim.text arts).contradictingCount >
        (analyzeArticleRelevance claim.text arts).supportingCount * 2) →
      ∃ v, verifyWithPubMed now claim ids arts = (some v, Bool.true) ∧
        v.rating = Rating.mixed ∧ v.confidence = 0.5) ∧
    (∀ (now : String) (claim : Claim) (ids : List String) (arts : List PubMedArticle),
      isHealthClaim claim.text = Bool.true → ids ≠ [] →
      1 ≤ (analyzeArticleRelevance claim.text arts).relevantArticles.length →
      (analyzeArticleRelevance claim.text arts).relevantArticles.length < 3 →
      ∃ v, verifyWithPubMed now claim ids arts = (some v, Bool.true) ∧
        v.rating = Rating.unverified ∧ v.confidence = 0.4) := by
  have hids' : ∀ ids : List String, ids ≠ [] → ids.isEmpty = Bool.false := by
    intro ids h
    cases ids with
    | nil => exact absurd rfl h
    | cons i t => rfl
  refine ⟨?_, ?_, ?_, ?_, ?_⟩
  · intro now claim ids arts hh
    simp [verifyWithPubMed, hh]
  · intro now claim ids arts hh hids hlen hdom
    obtain ⟨harts, hrel⟩ := pubmed_gates_of_relevant claim arts (by omega)
    refine ⟨_, verifyWithPubMed_some now claim ids arts hh (hids' ids hids) harts hrel,
      ?_, ?_⟩
    · simp only [pubmedVerification, if_pos hlen, if_pos hdom]
    · simp only [pubmedVerification, if_pos hlen, if_pos hdom]
      exact min_le_left _ _
  · intro now claim ids arts hh hids hlen hdom
    obtain ⟨harts, hrel⟩ := pubmed_gates_of_relevant claim arts (by omega)
    have hnot : ¬ ((analyzeArticleRelevance claim.text arts).supportingCount >
        (analyzeArticleRelevance claim.text arts).contradictingCount * 2) := by omega
    refine ⟨_, verifyWithPubMed_some now claim ids arts hh (hids' ids hids) harts hrel,
      ?_, ?_⟩
    · simp only [pubmedVerification, if_pos hlen, if_neg hnot, if_pos hdom]
    · simp only [pubmedVerification, if_pos hlen, if_neg hnot, if_pos hdom]
      exact min_le_left _ _
  · intro now claim ids arts hh hids hlen hns hnc
    obtain ⟨harts, hrel⟩ := pubmed_gates_of_relevant claim arts (by omega)
    refine ⟨_, verifyWithPubMed_some now claim ids arts hh (hids' ids hids) harts hrel,
      ?_, ?_⟩
    · simp only [pubmedVerification, if_pos hlen, if_neg hns, if_neg hnc]
    · simp only [pubmedVerification, if_pos hlen, if_neg hns, if_neg hnc]
  · intro now claim ids arts hh hids hlen1 hlen3
    obtain ⟨harts, hrel⟩ := pubmed_gates_of_relevant claim arts hlen1
    have hnot : ¬ (3 ≤ (analyzeArticleRelevance claim.text arts).relevantArticles.length) := by
      omega
    refine ⟨_, verifyWithPubMed_some now claim ids arts hh (hids' ids hids) harts hrel,
      ?_, ?_⟩
    · simp only [pubmedVerification, if_neg hnot]
    · simp only [pubmedVerification, if_neg hnot]

/-- A concrete health claim for the PubMed witnesses. -/
def wClaim : Claim := ⟨"c1", "vitamin improves sleep quality", none, none⟩

/-- A concrete PubMed article with the given uid and title. -/
def wArt (u t : String) : PubMedArticle := ⟨u, t, [], "J", "2020"⟩

/-- Three supporting relevant articles for the C7 witness. -/
def wArts : List PubMedArticle :=
  [wArt "1" "vitamin improves sleep", wArt "2" "vitamin improves sleep duration",
   wArt "3" "vitamin improves sleep onset"]

/-- C7 witness: a concrete health claim ("vitamin" keyword) with three
relevant supporting articles is rated mostly_true with confidence at
most 0.7. -/
theorem verifyWithPubMed_policy_witness :
    ∃ v, verifyWithPubMed "t0" wClaim ["1", "2", "3"] wArts = (some v, Bool.true) ∧
      v.rating = Rating.mostly_true ∧ v.confidence ≤ 0.7 :=
  verifyWithPubMed_policy.2.1 "t0" wClaim ["1", "2", "3"] wArts (by decide)
    (by decide) (by decide) (by decide)

/-- The rating policy as a function of the full relevance analysis (the
support/contradiction tallies over ALL relevant articles, not only the five
that become evidence). -/
def pubmedRating (a : RelevanceAnalysis) : Rating :=
  if 3 ≤ a.relevantArticles.length then
    if a.supportingCount > a.contradictingCount * 2 then .mostly_true
    else if a.contradictingCount > a.supportingCount * 2 then .mostly_false
    else .mixed
  else .unverified

/-- The built verification's evidence is always the first 5 relevant articles. -/
lemma pubmedVerification_evidence (now : String) (claim : Claim)
    (a : RelevanceAnalysis) :
    (pubmedVerification now claim a).evidence =
      (a.relevantArticles.take 5).map articleEvidence := by
  simp only [pubmedVerification]
  split_ifs <;> rfl

/-- The built verification's rating follows the full-tally policy. -/
lemma pubmedVerification_rating (now : String) (claim : Claim)
    (a : RelevanceAnalysis) :
    (pubmedVerification now claim a).rating = pubmedRating a := by
  simp only [pubmedVerification, pubmedRating]
  split_ifs <;> rfl

/-- C10: every Verification the PubMed adapter returns carries at most 5
evidence items, exactly the first 5 relevant articles, while its rating is
decided by the supporting/contradicting tallies over all relevant articles
(including those beyond the first 5). -/
theorem verifyWithPubMed_evidence_cap (now : String) (claim : Claim)
    (ids : List String) (arts : List PubMedArticle) (v : Verification)
    (h : (verifyWithPubMed now claim ids arts).1 = some v) :
    v.evidence.length ≤ 5 ∧
    v.evidence =
      ((analyzeArticleRelevance claim.text arts).relevantArticles.take 5).map
        articleEvidence ∧
    v.rating = pubmedRating (analyzeArticleRelevance claim.text arts) := by
  simp only [verifyWithPubMed] at h
  split_ifs at h
  simp at h
  obtain rfl := h.symm
  refine ⟨?_, pubmedVerification_evidence now claim _, pubmedVerification_rating now claim _⟩
  rw [pubmedVerification_evidence]
  rw [List.length_map, List.length_take]
  exact min_le_left _ _

/-- Six supporting relevant articles for the C10 witness: all six count
toward the tally while only five become evidence. -/
def wArts6 : List PubMedArticle :=
  [wArt "1" "vitamin improves sleep", wArt "2" "vitamin improves sleep duration",
   wArt "3" "vitamin improves sleep onset", wArt "4" "vitamin improves sleep depth",
   wArt "5" "vitamin improves sleep stability", wArt "6" "vitamin improves sleep cycles"]

/-- The verification the adapter returns on the C10 witness input. -/
def wResult6 : Verification :=
  ((verifyWithPubMed "t0" wClaim ["1", "2", "3", "4", "5", "6"] wArts6).1).getD
    (createUnverifiedResult "t0" wClaim)

/-- C10 witness: six relevant articles produce a verification with at
most 5 evidence items. -/
theorem verifyWithPubMed_evidence_cap_witness :
    (verifyWithPubMed "t0" wClaim ["1", "2", "3", "4", "5", "6"] wArts6).1 =
      some wResult6 ∧ wResult6.evidence.length ≤ 5 :=
  ⟨rfl, (verifyWithPubMed_evidence_cap "t0" wClaim ["1", "2", "3", "4", "5", "6"]
    wArts6 wResult6 rfl).1⟩

/-! ## C8 — batch scheduler -/

/-- The cache after sequentially verifying a list of claims. -/
def cacheAfter (env : Env) (cache : Cache) (claims : List Claim) : Cache :=
  claims.foldl (fun c claim => (verifyClaim env c claim).2) cache

/-- The batch loop returns one result per claim. -/
lemma runBatch_length (env : Env) :
    ∀ (claims : List Claim) (cache : Cache) (i : Nat),
      (runBatch env cache i claims).1.length = claims.length := by
  intro claims
  induction claims with
  | nil => intro cache i; rfl
  | cons c rest ih =>
    intro cache i
    simp only [runBatch, List.length_cons]
    rw [ih]

/-- The j-th batch result is the claim at position j verified against the
cache evolved through the claims before it. -/
lemma runBatch_get (env : Env) :
    ∀ (claims : List Claim) (cache : Cache) (i j : Nat), j < claims.length →
      (runBatch env cache i claims).1.get? j =
        some (verifyClaim env (cacheAfter env cache (claims.take j))
          (claims.getD j ⟨"", "", none, none⟩)).1 := by
  intro claims
  induction claims with
  | nil => intro cache i j hj; simp at hj
  | cons c rest ih =>
    intro cache i j hj
    cases j with
    | zero => rfl
    | succ j' =>
      simp only [runBatch, List.get?_cons_succ]
      rw [ih ((verifyClaim env cache c).2) (i + 1) j' (by simpa using hj)]
      rfl

/-- Membership of the pause list, with the start position explicit: a pause
stands after position i + k exactly when the k-th claim of the remaining batch
was a cache miss and is not the last one. -/
lemma runBatch_pause_mem (env : Env) :
    ∀ (claims : List Claim) (cache : Cache) (i j : Nat),
      j ∈ (runBatch env cache i claims).2.1 ↔
        ∃ k, j = i + k ∧ k + 1 < claims.length ∧
          ∃ r, (runBatch env cache i claims).1.get? k = some r ∧ r.2 = Bool.false := by
  intro claims
  induction claims with
  | nil =>
    intro cache i j
    simp [runBatch]
  | cons c rest ih =>
    intro cache i j
    simp only [runBatch]
    constructor
    · intro hmem
      rcases List.mem_append.mp hmem with hpre | hps
      · by_cases hcond :
          (!(verifyClaim env cache c).1.2 && !rest.isEmpty) = true
        · rw [if_pos hcond] at hpre
          obtain rfl := List.mem_singleton.mp hpre
          rw [Bool.and_eq_true, Bool.not_eq_true', Bool.not_eq_true'] at hcond
          refine ⟨0, by omega, ?_, (verifyClaim env cache c).1, rfl, hcond.1⟩
          have : rest ≠ [] := by
            intro hnil
            rw [hnil] at hcond
            simp at hcond
          have : 0 < rest.length := List.length_pos.mpr this
          simpa using this
        · rw [if_neg hcond] at hpre
          simp at hpre
      · obtain ⟨k, hjk, hk, r, hget, hr⟩ :=
          (ih ((verifyClaim env cache c).2) (i + 1) j).mp hps
        refine ⟨k + 1, by omega, ?_, r, ?_, hr⟩
        · simp only [List.length_cons]
          omega
        · simpa using hget
    · rintro ⟨k, rfl, hk, r, hget, hr⟩
      cases k with
      | zero =>
        apply List.mem_append.mpr
        left
        have hr' : r = (verifyClaim env cache c).1 := by
          simpa using hget.symm
        have hrest : rest ≠ [] := by
          intro hnil
          rw [hnil] at hk
          simp at hk
        have hcond : (!(verifyClaim env cache c).1.2 && !rest.isEmpty) = true := by
          rw [Bool.and_eq_true, Bool.not_eq_true', Bool.not_eq_true']
          exact ⟨by rw [← hr']; exact hr, by
            cases rest with
            | nil => exact absurd rfl hrest
            | cons x xs => rfl⟩
        rw [if_pos hcond]
        simp
      | succ k' =>
        apply List.mem_append.mpr
        right
        rw [ih ((verifyClaim env cache c).2) (i + 1) (i + (k' + 1))]
        refine ⟨k', by omega, ?_, r, ?_, hr⟩
        · simp only [List.length_cons] at hk
          omega
        · simpa using hget

/-- The environment of the C8 scenario: no credentials, every adapter absent. -/
def scenEnv : Env :=
  ⟨none, none, "t0", fun _ => none, fun _ => none, fun _ => none, fun _ => none⟩

/-- The C8 scenario batch: two identical claim texts under different ids. -/
def scenClaims : List Claim :=
  [⟨"a", "same text", none, none⟩, ⟨"b", "same text", none, none⟩]

/-- C8: the batch verifier processes the claims sequentially, returning one
verification per claim, index-aligned (the j-th output is the j-th claim
verified against the cache evolved through the claims before it), plus the
cache-hit count; the 500ms pause stands exactly after the cache-miss claims
that are not last in the batch; and on a batch of two identical texts under
different ids the first (miss) claim is followed by the pause, the second is
a cache hit with no pause, and the cache-hit count is 1. -/
theorem verifyClaims_batch_spec :
    (∀ (env : Env) (cache : Cache) (claims : List Claim),
      (verifyClaims env cache claims).1.1.length = claims.length) ∧
    (∀ (env : Env) (cache : Cache) (claims : List Claim) (j : Nat),
      j < claims.length →
      (runBatch env cache 0 claims).1.get? j =
        some (verifyClaim env (cacheAfter env cache (claims.take j))
          (claims.getD j ⟨"", "", none, none⟩)).1) ∧
    (∀ (env : Env) (cache : Cache) (claims : List Claim) (j : Nat),
      j ∈ (verifyClaims env cache claims).2.1 ↔
        j + 1 < claims.length ∧
        ∃ r, (runBatch env cache 0 claims).1.get? j = some r ∧ r.2 = Bool.false) ∧
    ((verifyClaims scenEnv [] scenClaims).1.2 = 1 ∧
      (verifyClaims scenEnv [] scenClaims).2.1 = [0] ∧
      (verifyClaims scenEnv [] scenClaims).1.1.length = 2) := by
  refine ⟨?_, ?_, ?_, ?_, ?_, ?_⟩
  · intro env cache claims
    simp only [verifyClaims, List.length_map]
    exact runBatch_length env claims cache 0
  · intro env cache claims j hj
    exact runBatch_get env claims cache 0 j hj
  · intro env cache claims j
    rw [show (verifyClaims env cache claims).2.1 = (runBatch env cache 0 claims).2.1
      from rfl]
    rw [runBatch_pause_mem env claims cache 0 j]
    constructor
    · rintro ⟨k, rfl, hk, r, hget, hr⟩
      rw [Nat.zero_add]
      exact ⟨hk, ⟨r, hget, hr⟩⟩
    · rintro ⟨hk, r, hget, hr⟩
      exact ⟨j, (Nat.zero_add j).symm, hk, ⟨r, hget, hr⟩⟩
  · decide
  · decide
  · decide

/-- C8 witness: the first result of the scenario batch is the first claim
verified against the initial cache. -/
theorem verifyClaims_batch_spec_witness :
    (runBatch scenEnv [] 0 scenClaims).1.get? 0 =
      some (verifyClaim scenEnv (cacheAfter scenEnv [] (scenClaims.take 0))
        (scenClaims.getD 0 ⟨"", "", none, none⟩)).1 :=
  verifyClaims_batch_spec.2.1 scenEnv [] scenClaims 0 (by decide)

end LieDetector
